import Mathlib

/-!
Shallow embedding of the tic-chess-go rules engine (src/game.py):
a 3x3 drop-chess variant where "check" is a tic-tac-toe alignment
condition.  The board is indexed `board y x` exactly as
`self.board[y][x]` in the source; the turn flag is `true` when White is to move.
Stateful methods of the Python `Game` class become pure functions from
`Game` to `Game` (or to a result paired with the post-call `Game`).
-/

/-- The cell contents: `Piece.EMPTY` plus four piece kinds in two colors,
mirroring the `Piece` enum of the source. -/
inductive Piece
  | EMPTY
  | WHITE_PAWN
  | WHITE_ROOK
  | WHITE_KNIGHT
  | WHITE_BISHOP
  | BLACK_PAWN
  | BLACK_ROOK
  | BLACK_KNIGHT
  | BLACK_BISHOP
deriving DecidableEq, Repr, Fintype

/-- Embedding of `Piece.is_white` from the source. -/
def Piece.is_white : Piece → Bool
  | Piece.WHITE_PAWN | Piece.WHITE_ROOK | Piece.WHITE_KNIGHT | Piece.WHITE_BISHOP => true
  | _ => false

/-- Embedding of `Piece.is_black` from the source. -/
def Piece.is_black : Piece → Bool
  | Piece.BLACK_PAWN | Piece.BLACK_ROOK | Piece.BLACK_KNIGHT | Piece.BLACK_BISHOP => true
  | _ => false

/-- Embedding of `Piece.is_empty` from the source. -/
def Piece.is_empty (p : Piece) : Bool := p = Piece.EMPTY

/-- Embedding of `Piece.is_pawn` from the source. -/
def Piece.is_pawn : Piece → Bool
  | Piece.WHITE_PAWN | Piece.BLACK_PAWN => true
  | _ => false

/-- Embedding of `Piece.is_rook` from the source. -/
def Piece.is_rook : Piece → Bool
  | Piece.WHITE_ROOK | Piece.BLACK_ROOK => true
  | _ => false

/-- Embedding of `Piece.is_knight` from the source. -/
def Piece.is_knight : Piece → Bool
  | Piece.WHITE_KNIGHT | Piece.BLACK_KNIGHT => true
  | _ => false

/-- Embedding of `Piece.is_bishop` from the source. -/
def Piece.is_bishop : Piece → Bool
  | Piece.WHITE_BISHOP | Piece.BLACK_BISHOP => true
  | _ => false

/-- A move: start coordinates, the piece being placed or moved, optional
end coordinates (both absent for a drop/placement), and an optional
promotion piece.  Field order follows the `Move.__init__` signature.
Coordinates are `Fin 3` since the board is fixed at 3x3. -/
structure Move where
  start_x : Fin 3
  start_y : Fin 3
  piece : Piece
  end_x : Option (Fin 3) := none
  end_y : Option (Fin 3) := none
  promotion : Option Piece := none
deriving DecidableEq, Repr

/-- Column letters of `Move.to_string`: x=0,1,2 maps to a,b,c. -/
def xMapping (x : Fin 3) : String :=
  if x.val = 0 then "a" else if x.val = 1 then "b" else "c"

/-- Row digits of `Move.to_string`: y=0,1,2 maps to 3,2,1. -/
def yMapping (y : Fin 3) : String :=
  if y.val = 0 then "3" else if y.val = 1 then "2" else "1"

/-- The `promotion_mapping` dict of `Move.to_string`; the `.get` default
of the source (an empty string for unmapped pieces) is the catch-all. -/
def promotionMapping : Piece → String
  | Piece.WHITE_ROOK => "R"
  | Piece.WHITE_KNIGHT => "K"
  | Piece.WHITE_BISHOP => "B"
  | Piece.BLACK_ROOK => "R"
  | Piece.BLACK_KNIGHT => "K"
  | Piece.BLACK_BISHOP => "B"
  | _ => ""

/-- Embedding of `Move.to_string` from the source: start square, then (when both end
coordinates are present) a hyphen and the end square, then (when a
promotion is set) the promotion letter. -/
def Move.to_string (m : Move) : String :=
  let s := xMapping m.start_x ++ yMapping m.start_y
  let s :=
    match m.end_x, m.end_y with
    | some ex, some ey => s ++ "-" ++ xMapping ex ++ yMapping ey
    | _, _ => s
  match m.promotion with
  | some p => s ++ promotionMapping p
  | none => s

/-- The board: `board y x`, as in `self.board[y][x]` of the source. -/
abbrev Board := Fin 3 → Fin 3 → Piece

/-- Writing one cell of the board (`self.board[y][x] = p`). -/
def setBoard (b : Board) (y x : Fin 3) (p : Piece) : Board :=
  fun y' x' => if y' = y ∧ x' = x then p else b y' x'

/-- Embedding of `any(piece in row for row in self.board)` in `Game.promote`. -/
def pieceOnBoard (b : Board) (p : Piece) : Bool :=
  (List.finRange 3).any fun y => (List.finRange 3).any fun x => b y x = p

/-- The game state: the 3x3 grid and the side-to-move flag
(`true` = White to move, the class default of the source). -/
structure Game where
  board : Board
  turn : Bool := true

/-- A freshly constructed game (`Game.__init__`): all cells `EMPTY`,
turn left at the class default `True`. -/
def Game.initial : Game := { board := fun _ _ => Piece.EMPTY }

/-- Embedding of `Game.in_check`: true iff the opponent of the side to move occupies
all three cells of some row, some column, or one of the two diagonals. -/
def Game.in_check (g : Game) : Bool :=
  let opp : Piece → Bool := fun p =>
    (p.is_white && !g.turn) || (p.is_black && g.turn)
  ((List.finRange 3).any fun y => (List.finRange 3).all fun x => opp (g.board y x))
    || ((List.finRange 3).any fun x => (List.finRange 3).all fun y => opp (g.board y x))
    || ((List.finRange 3).all fun i => opp (g.board i i))
    || ((List.finRange 3).all fun i => opp (g.board i (2 - i)))

/-- Embedding of `Game.execute_move`: a placement (either end coordinate absent)
writes the piece to the start cell; a movement writes the piece to the
end cell and then clears the start cell; both flip the turn. -/
def Game.execute_move (g : Game) (m : Move) : Game :=
  match m.end_x, m.end_y with
  | some ex, some ey =>
      { board := setBoard (setBoard g.board ey ex m.piece) m.start_y m.start_x Piece.EMPTY
        turn := !g.turn }
  | _, _ =>
      { board := setBoard g.board m.start_y m.start_x m.piece
        turn := !g.turn }

/-- Embedding of `Game.would_put_in_check`, with the mutation of `self` made
explicit: the returned `Game` is the state of the object after the call
(the snapshot of board and turn is restored unconditionally). -/
def Game.would_put_in_check_state (g : Game) (m : Move) : Bool × Game :=
  let old_board := g.board
  let old_turn := g.turn
  let g1 := g.execute_move m
  let g2 : Game := { g1 with turn := !g1.turn }
  let r := g2.in_check
  (r, { g2 with board := old_board, turn := old_turn })

/-- The boolean result of `Game.would_put_in_check`. -/
def Game.would_put_in_check (g : Game) (m : Move) : Bool :=
  (g.would_put_in_check_state m).1

/-- Conversion of an int coordinate to an on-board coordinate: `none`
exactly when the bounds check `0 <= n < 3` of the source fails. -/
def toFin3 (n : Int) : Option (Fin 3) :=
  if h : 0 ≤ n ∧ n < 3 then some ⟨n.toNat, by omega⟩ else none

/-- The promotion candidates of `Game.promote` for each side. -/
def promoPieces (turn : Bool) : List Piece :=
  if turn then [Piece.WHITE_ROOK, Piece.WHITE_KNIGHT, Piece.WHITE_BISHOP]
  else [Piece.BLACK_ROOK, Piece.BLACK_KNIGHT, Piece.BLACK_BISHOP]

/-- Embedding of `Game.promote`: the unpromoted move first, then one variant per
mover-colored non-pawn piece type not currently anywhere on the board,
carrying that piece as both the piece field and the promotion field. -/
def Game.promote (g : Game) (move : Move) : List Move :=
  move :: ((promoPieces g.turn).filter fun p => !pieceOnBoard g.board p).map fun p =>
    { start_x := move.start_x, start_y := move.start_y, piece := p
      end_x := move.end_x, end_y := move.end_y, promotion := some p }

/-- Embedding of `Game.pawn_movements`: forward (dy = -1 for White, +1 for Black)
onto an empty cell, or diagonally capturing an opposite-color piece;
arrivals on rows 0 or 2 are expanded through `Game.promote`. -/
def Game.pawn_movements (g : Game) (x y : Fin 3) : List Move :=
  ([0, 1, -1] : List Int).flatMap fun dx =>
    let dy : Int := if g.turn then -1 else 1
    match toFin3 (x.val + dx), toFin3 (y.val + dy) with
    | some nx, some ny =>
        let target := g.board ny nx
        let is_empty := target.is_empty
        let is_opposite := (target.is_white && !g.turn) || (target.is_black && g.turn)
        if (is_empty && dx == 0) || (is_opposite && dx != 0) then
          let mv : Move :=
            { start_x := x, start_y := y, piece := g.board y x
              end_x := some nx, end_y := some ny }
          if ny.val = 0 ∨ ny.val = 2 then g.promote mv else [mv]
        else []
    | _, _ => []

/-- The 8 L-shaped knight offsets, in source order. -/
def knightDiffs : List (Int × Int) :=
  [(1, 2), (2, 1), (-1, 2), (-2, 1), (1, -2), (2, -1), (-1, -2), (-2, -1)]

/-- Embedding of `Game.knight_movements`: each in-bounds offset target that is empty
or holds an opposite-color piece; out-of-bounds offsets are dropped. -/
def Game.knight_movements (g : Game) (x y : Fin 3) : List Move :=
  knightDiffs.flatMap fun d =>
    match toFin3 (x.val + d.1), toFin3 (y.val + d.2) with
    | some nx, some ny =>
        let target := g.board ny nx
        let is_empty := target == Piece.EMPTY
        let is_opposite := (target.is_white && !g.turn) || (target.is_black && g.turn)
        if is_empty || is_opposite then
          [{ start_x := x, start_y := y, piece := g.board y x
             end_x := some nx, end_y := some ny }]
        else []
    | _, _ => []

/-- One sliding ray of `Game.bischop_movement` / `Game.rook_movement`:
steps from cell to cell while in bounds, emitting empty cells and a
first occupied cell when it is an opposite-color piece, stopping at any
occupied cell.  The while loop of the source runs at most 3 iterations
on a 3x3 board, so fuel 3 is exact. -/
def slideRay (g : Game) (x y : Fin 3) (dx dy : Int) : Nat → Int → Int → List Move
  | 0, _, _ => []
  | Nat.succ fuel, cx, cy =>
      match toFin3 cx, toFin3 cy with
      | some nx, some ny =>
          let target := g.board ny nx
          let is_empty := target == Piece.EMPTY
          let is_opposite := (target.is_white && !g.turn) || (target.is_black && g.turn)
          let here : List Move :=
            if is_empty || is_opposite then
              [{ start_x := x, start_y := y, piece := g.board y x
                 end_x := some nx, end_y := some ny }]
            else []
          if is_empty then here ++ slideRay g x y dx dy fuel (cx + dx) (cy + dy)
          else here
      | _, _ => []

/-- Embedding of `Game.bischop_movement` (source spelling): the four diagonal rays. -/
def Game.bischop_movement (g : Game) (x y : Fin 3) : List Move :=
  ([(1, 1), (-1, 1), (1, -1), (-1, -1)] : List (Int × Int)).flatMap fun d =>
    slideRay g x y d.1 d.2 3 (x.val + d.1) (y.val + d.2)

/-- Embedding of `Game.rook_movement`: the four orthogonal rays. -/
def Game.rook_movement (g : Game) (x y : Fin 3) : List Move :=
  ([(1, 0), (0, 1), (-1, 0), (0, -1)] : List (Int × Int)).flatMap fun d =>
    slideRay g x y d.1 d.2 3 (x.val + d.1) (y.val + d.2)

/-- The pawn dropped by a placement move (`placement_pawn`). -/
def moverPawn (turn : Bool) : Piece :=
  if turn then Piece.WHITE_PAWN else Piece.BLACK_PAWN

/-- The placement move emitted for an empty cell. -/
def dropMove (turn : Bool) (x y : Fin 3) : Move :=
  { start_x := x, start_y := y, piece := moverPawn turn }

/-- The rank condition of the drop branch in `Game.allowed_moves`:
`(y != 0 and self.turn) or (y != 2 and not self.turn)`. -/
def dropRankOK (turn : Bool) (y : Fin 3) : Bool :=
  (y.val != 0 && turn) || (y.val != 2 && !turn)

/-- Whether a piece belongs to the given side to move. -/
def colorMatches (turn : Bool) (p : Piece) : Bool :=
  if turn then p.is_white else p.is_black

/-- The candidate moves contributed by one cell of the scan in
`Game.allowed_moves`: skip opponent pieces, emit a pawn drop on an
allowed empty cell, and dispatch to the per-piece generators. -/
def Game.cellMoves (g : Game) (x y : Fin 3) : List Move :=
  let piece := g.board y x
  if piece.is_black && g.turn then []
  else if piece.is_white && !g.turn then []
  else
    (if piece == Piece.EMPTY && dropRankOK g.turn y then
        [dropMove g.turn x y]
      else [])
    ++ (if piece == Piece.WHITE_PAWN || piece == Piece.BLACK_PAWN then
          g.pawn_movements x y else [])
    ++ (if piece == Piece.WHITE_KNIGHT || piece == Piece.BLACK_KNIGHT then
          g.knight_movements x y else [])
    ++ (if piece == Piece.WHITE_BISHOP || piece == Piece.BLACK_BISHOP then
          g.bischop_movement x y else [])
    ++ (if piece == Piece.WHITE_ROOK || piece == Piece.BLACK_ROOK then
          g.rook_movement x y else [])

/-- The scan order of `Game.allowed_moves`: x ascending, y descending. -/
def scanCells : List (Fin 3 × Fin 3) :=
  (List.finRange 3).flatMap fun x => ((List.finRange 3).reverse).map fun y => (x, y)

/-- All candidate moves of `Game.allowed_moves` before the self-check
filter, in scan order. -/
def Game.candidates (g : Game) : List Move :=
  scanCells.flatMap fun c => g.cellMoves c.1 c.2

/-- Embedding of `Game.allowed_moves`: the candidates surviving the self-check
filter. -/
def Game.allowed_moves (g : Game) : List Move :=
  g.candidates.filter fun m => !g.would_put_in_check m

/-- Embedding of `Game.check_mate`: in check with no legal moves. -/
def Game.check_mate (g : Game) : Bool :=
  g.in_check && g.allowed_moves.isEmpty

/-- Embedding of `Game.stalemate`: not in check with no legal moves. -/
def Game.stalemate (g : Game) : Bool :=
  !g.in_check && g.allowed_moves.isEmpty

/-- Executing a list of moves in order. -/
def Game.execSeq (g : Game) : List Move → Game
  | [] => g
  | m :: ms => (g.execute_move m).execSeq ms

/-- Whether every move of the list is legal (a member of
`allowed_moves`) in the state where it is played. -/
def Game.allowedSeq (g : Game) : List Move → Bool
  | [] => true
  | m :: ms => decide (m ∈ g.allowed_moves) && (g.execute_move m).allowedSeq ms

/-- Modelled from the spec (section 4.2 / 6), for comparison with
`Move.to_string` of the source: column letters a-c for x = 0,1,2. -/
def specColLetter (x : Fin 3) : String :=
  match x.val with
  | 0 => "a"
  | 1 => "b"
  | _ => "c"

/-- Modelled from the spec: row digits 3,2,1 for y = 0,1,2. -/
def specRowDigit (y : Fin 3) : String :=
  toString (3 - y.val)

/-- Modelled from the spec: the trailing promotion letter R/K/B for a
rook, knight or bishop. -/
def specPromoLetter (p : Piece) : String :=
  if p.is_rook then "R" else if p.is_knight then "K" else if p.is_bishop then "B" else ""

/-- Modelled from the spec: the full notation grammar — start square,
a hyphen and the end square exactly when a destination exists, and the
promotion letter exactly when a promotion is set. -/
def specMoveString (m : Move) : String :=
  specColLetter m.start_x ++ specRowDigit m.start_y
    ++ (match m.end_x, m.end_y with
        | some ex, some ey => "-" ++ specColLetter ex ++ specRowDigit ey
        | _, _ => "")
    ++ (match m.promotion with
        | some p => specPromoLetter p
        | none => "")

/-- A 3x3 board that is empty except for a White knight at (1,1),
White to move: the literal position of the knight-bounds spec case. -/
def knightCenterGame : Game :=
  { board := fun y x => if y = 1 ∧ x = 1 then Piece.WHITE_KNIGHT else Piece.EMPTY }

/-! ### Helper lemmas -/

theorem execute_move_turn (g : Game) (m : Move) : (g.execute_move m).turn = !g.turn := by
  unfold Game.execute_move
  rcases m with ⟨sx, sy, pc, ex, ey, pr⟩
  cases ex <;> cases ey <;> rfl

theorem would_put_in_check_eq (g : Game) (m : Move) :
    g.would_put_in_check m
      = Game.in_check { board := (g.execute_move m).board, turn := g.turn } := by
  have h : g.would_put_in_check m
      = Game.in_check { board := (g.execute_move m).board, turn := !(g.execute_move m).turn } := rfl
  rw [h, execute_move_turn, Bool.not_not]

/-! ### Claim theorems -/

/-- Claim C1: every move returned by `allowed_moves`, once executed and
re-evaluated from the perspective of the mover, leaves the mover out of
check; and `allowed_moves` is exactly the candidate list filtered by
`would_put_in_check`, in candidate order. -/
theorem claim_C1_self_check_exclusion (g : Game) (m : Move)
    (h : m ∈ g.allowed_moves) :
    Game.in_check { board := (g.execute_move m).board, turn := g.turn } = false ∧
    g.allowed_moves = g.candidates.filter fun mv => !g.would_put_in_check mv := by
  refine ⟨?_, rfl⟩
  have h2 := (List.mem_filter.mp h).2
  rw [← would_put_in_check_eq]
  simpa using h2

theorem claim_C1_witness :
    Game.in_check
      { board := (Game.initial.execute_move ⟨0, 2, Piece.WHITE_PAWN, none, none, none⟩).board
        turn := Game.initial.turn } = false :=
  (claim_C1_self_check_exclusion Game.initial
    ⟨0, 2, Piece.WHITE_PAWN, none, none, none⟩ (by decide)).1

/-- Claim C2: `would_put_in_check` leaves the game unchanged — after
the call, every board cell and the turn flag equal their pre-call
values. -/
theorem claim_C2_revert_integrity (g : Game) (m : Move) :
    (∀ y x : Fin 3, ((g.would_put_in_check_state m).2).board y x = g.board y x) ∧
    ((g.would_put_in_check_state m).2).turn = g.turn ∧
    (g.would_put_in_check_state m).2 = g :=
  ⟨fun _ _ => rfl, rfl, rfl⟩

/-- Claim C3: checkmate and stalemate are mutually exclusive, the move
list is empty iff one of them holds, and each equals its defining
conjunction. -/
theorem claim_C3_terminal_exclusivity (g : Game) :
    ¬(g.check_mate = true ∧ g.stalemate = true) ∧
    (g.allowed_moves = [] ↔ (g.check_mate = true ∨ g.stalemate = true)) ∧
    g.check_mate = (g.in_check && g.allowed_moves.isEmpty) ∧
    g.stalemate = (!g.in_check && g.allowed_moves.isEmpty) := by
  refine ⟨?_, ?_, rfl, rfl⟩
  · rintro ⟨h1, h2⟩
    cases hc : g.in_check <;>
      simp [Game.check_mate, Game.stalemate, hc] at h1 h2
  · cases hl : g.allowed_moves <;>
      cases hc : g.in_check <;>
        simp [Game.check_mate, Game.stalemate, hc, hl]

theorem claim_C3_witness :
    Game.initial.check_mate
        = (Game.initial.in_check && Game.initial.allowed_moves.isEmpty) ∧
    Game.initial.stalemate
        = (!Game.initial.in_check && Game.initial.allowed_moves.isEmpty) :=
  ⟨(claim_C3_terminal_exclusivity Game.initial).2.2.1,
   (claim_C3_terminal_exclusivity Game.initial).2.2.2⟩

/-- Claim C4 (counterexample): the promotion option for a placed piece
type is not permanently unavailable.  A legal 8-move sequence promotes
a White pawn to a rook, lets Black capture that rook, and then a later
White pawn promotion offers the rook again. -/
theorem claim_C4_counterexample :
    ¬ (∀ (p : Piece) (pre post : List Move),
        (p.is_rook || p.is_knight || p.is_bishop) = true →
        Game.initial.allowedSeq (pre ++ post) = true →
        pieceOnBoard (Game.initial.execSeq pre).board p = true →
        ∀ m ∈ (Game.initial.execSeq (pre ++ post)).allowed_moves,
          m.promotion ≠ some p) := by
  intro hclaim
  exact hclaim Piece.WHITE_ROOK
    [⟨0, 1, Piece.WHITE_PAWN, none, none, none⟩,
     ⟨1, 0, Piece.BLACK_PAWN, none, none, none⟩,
     ⟨0, 1, Piece.WHITE_ROOK, some 0, some 0, some Piece.WHITE_ROOK⟩]
    [⟨2, 1, Piece.BLACK_PAWN, none, none, none⟩,
     ⟨0, 0, Piece.WHITE_ROOK, some 0, some 1, none⟩,
     ⟨1, 0, Piece.BLACK_PAWN, some 0, some 1, none⟩,
     ⟨1, 1, Piece.WHITE_PAWN, none, none, none⟩,
     ⟨0, 1, Piece.BLACK_PAWN, some 0, some 2, none⟩]
    (by decide) (by decide) (by decide)
    ⟨1, 1, Piece.WHITE_ROOK, some 1, some 0, some Piece.WHITE_ROOK⟩
    (by decide) rfl

/-- Claim C5 (counterexample): a White knight at (1,1) of the 3x3 board
does not have 4 in-bounds targets — all 8 L-shaped offsets leave the
board. -/
theorem claim_C5_counterexample :
    ¬ ((knightCenterGame.knight_movements 1 1).length = 4) := by decide

/-- Claim C5 (amended): from (1,1) every one of the 8 L-shaped offsets
lands outside the board, each is silently dropped, and
`knight_movements` returns the empty list. -/
theorem claim_C5_knight_center :
    (knightDiffs.all fun d =>
        (toFin3 (1 + d.1)).isNone || (toFin3 (1 + d.2)).isNone) = true ∧
    knightCenterGame.knight_movements 1 1 = [] := by
  exact ⟨by decide, by decide⟩

/-- Claim C9: a freshly constructed game has all nine cells empty and
White to move. -/
theorem claim_C9_initial_state :
    (∀ y x : Fin 3, Game.initial.board y x = Piece.EMPTY) ∧
    Game.initial.turn = true :=
  ⟨fun _ _ => rfl, rfl⟩

theorem mem_promote (g : Game) (mv m : Move) :
    m ∈ g.promote mv ↔
      m = mv ∨ ∃ p, p ∈ promoPieces g.turn ∧ pieceOnBoard g.board p = false ∧
        m = { start_x := mv.start_x, start_y := mv.start_y, piece := p
              end_x := mv.end_x, end_y := mv.end_y, promotion := some p } := by
  simp only [Game.promote, List.mem_cons, List.mem_map, List.mem_filter,
    Bool.not_eq_true']
  constructor
  · rintro (rfl | ⟨p, ⟨hp, hb⟩, rfl⟩)
    · exact Or.inl rfl
    · exact Or.inr ⟨p, hp, hb, rfl⟩
  · rintro (rfl | ⟨p, hp, hb, rfl⟩)
    · exact Or.inl rfl
    · exact Or.inr ⟨p, ⟨hp, hb⟩, rfl⟩

theorem mem_slideRay (g : Game) (x y : Fin 3) (dx dy : Int) :
    ∀ (fuel : Nat) (cx cy : Int) (m : Move), m ∈ slideRay g x y dx dy fuel cx cy →
      m.start_x = x ∧ m.start_y = y ∧ m.piece = g.board y x ∧ m.promotion = none ∧
      ∃ ex ey, m.end_x = some ex ∧ m.end_y = some ey := by
  intro fuel
  induction fuel with
  | zero => intro cx cy m h; simp [slideRay] at h
  | succ n ih =>
    intro cx cy m h
    simp only [slideRay] at h
    split at h
    · split at h
      · rcases List.mem_append.mp h with h | h
        · split at h
          · simp only [List.mem_singleton] at h
            subst h
            exact ⟨rfl, rfl, rfl, rfl, _, _, rfl, rfl⟩
          · simp at h
        · exact ih _ _ _ h
      · split at h
        · simp only [List.mem_singleton] at h
          subst h
          exact ⟨rfl, rfl, rfl, rfl, _, _, rfl, rfl⟩
        · simp at h
    · simp at h

theorem mem_knight_movements (g : Game) (x y : Fin 3) (m : Move)
    (h : m ∈ g.knight_movements x y) :
    m.start_x = x ∧ m.start_y = y ∧ m.piece = g.board y x ∧ m.promotion = none ∧
    ∃ ex ey, m.end_x = some ex ∧ m.end_y = some ey := by
  simp only [Game.knight_movements, List.mem_flatMap] at h
  obtain ⟨d, _, h⟩ := h
  split at h
  · split at h
    · simp only [List.mem_singleton] at h
      subst h
      exact ⟨rfl, rfl, rfl, rfl, _, _, rfl, rfl⟩
    · simp at h
  · simp at h

theorem mem_bischop_movement (g : Game) (x y : Fin 3) (m : Move)
    (h : m ∈ g.bischop_movement x y) :
    m.start_x = x ∧ m.start_y = y ∧ m.piece = g.board y x ∧ m.promotion = none ∧
    ∃ ex ey, m.end_x = some ex ∧ m.end_y = some ey := by
  simp only [Game.bischop_movement, List.mem_flatMap] at h
  obtain ⟨d, _, h⟩ := h
  exact mem_slideRay g x y d.1 d.2 3 _ _ m h

theorem mem_rook_movement (g : Game) (x y : Fin 3) (m : Move)
    (h : m ∈ g.rook_movement x y) :
    m.start_x = x ∧ m.start_y = y ∧ m.piece = g.board y x ∧ m.promotion = none ∧
    ∃ ex ey, m.end_x = some ex ∧ m.end_y = some ey := by
  simp only [Game.rook_movement, List.mem_flatMap] at h
  obtain ⟨d, _, h⟩ := h
  exact mem_slideRay g x y d.1 d.2 3 _ _ m h

theorem mem_pawn_movements (g : Game) (x y : Fin 3) (m : Move)
    (h : m ∈ g.pawn_movements x y) :
    m.start_x = x ∧ m.start_y = y ∧
    (∃ ex ey, m.end_x = some ex ∧ m.end_y = some ey) ∧
    ((m.promotion = none ∧ m.piece = g.board y x) ∨
      ∃ p, m.promotion = some p ∧ m.piece = p ∧ p ∈ promoPieces g.turn ∧
        pieceOnBoard g.board p = false) := by
  simp only [Game.pawn_movements, List.mem_flatMap] at h
  obtain ⟨dx, _, h⟩ := h
  split at h
  · split at h
    · split at h
      · rcases (mem_promote g _ m).mp h with rfl | ⟨p, hp, hb, rfl⟩
        · exact ⟨rfl, rfl, ⟨_, _, rfl, rfl⟩, Or.inl ⟨rfl, rfl⟩⟩
        · exact ⟨rfl, rfl, ⟨_, _, rfl, rfl⟩, Or.inr ⟨p, rfl, rfl, hp, hb⟩⟩
      · simp only [List.mem_singleton] at h
        subst h
        exact ⟨rfl, rfl, ⟨_, _, rfl, rfl⟩, Or.inl ⟨rfl, rfl⟩⟩
    · simp at h
  · simp at h

theorem colorMatches_of_scan (t : Bool) (p : Piece)
    (h1 : (p.is_black && t) = false) (h2 : (p.is_white && !t) = false)
    (hne : p ≠ Piece.EMPTY) : colorMatches t p = true := by
  cases t <;> cases p <;> simp_all [colorMatches, Piece.is_black, Piece.is_white]

theorem colorMatches_ne_empty (t : Bool) (p : Piece)
    (h : colorMatches t p = true) : p ≠ Piece.EMPTY := by
  cases t <;> cases p <;> simp_all [colorMatches, Piece.is_black, Piece.is_white]

theorem promoPieces_color (t : Bool) (p : Piece) (h : p ∈ promoPieces t) :
    colorMatches t p = true := by
  cases t <;> simp [promoPieces] at h <;> rcases h with rfl | rfl | rfl <;> rfl

theorem mem_cellMoves (g : Game) (x y : Fin 3) (m : Move)
    (h : m ∈ g.cellMoves x y) :
    m.start_x = x ∧ m.start_y = y ∧
    ((m = dropMove g.turn x y ∧ g.board y x = Piece.EMPTY ∧
        dropRankOK g.turn y = true) ∨
      (colorMatches g.turn (g.board y x) = true ∧
        (∃ ex ey, m.end_x = some ex ∧ m.end_y = some ey) ∧
        ((m.promotion = none ∧ m.piece = g.board y x) ∨
          ∃ p, m.promotion = some p ∧ m.piece = p ∧ p ∈ promoPieces g.turn ∧
            pieceOnBoard g.board p = false))) := by
  simp only [Game.cellMoves] at h
  split at h
  · simp at h
  · split at h
    · simp at h
    · rename_i hsk1 hsk2
      simp only [Bool.not_eq_true] at hsk1 hsk2
      simp only [List.mem_append, or_assoc] at h
      rcases h with h | h | h | h | h
      · split at h
        · rename_i hcond
          simp only [Bool.and_eq_true, beq_iff_eq] at hcond
          simp only [List.mem_singleton] at h
          subst h
          exact ⟨rfl, rfl, Or.inl ⟨rfl, hcond.1, hcond.2⟩⟩
        · simp at h
      · split at h
        · rename_i hcond
          simp only [Bool.or_eq_true, beq_iff_eq] at hcond
          obtain ⟨h1, h2, hend, hcase⟩ := mem_pawn_movements g x y m h
          have hne : g.board y x ≠ Piece.EMPTY := by
            rcases hcond with h9 | h9 <;> simp [h9]
          exact ⟨h1, h2, Or.inr ⟨colorMatches_of_scan _ _ hsk1 hsk2 hne, hend, hcase⟩⟩
        · simp at h
      · split at h
        · rename_i hcond
          simp only [Bool.or_eq_true, beq_iff_eq] at hcond
          obtain ⟨h1, h2, h3, h4, h5⟩ := mem_knight_movements g x y m h
          have hne : g.board y x ≠ Piece.EMPTY := by
            rcases hcond with h9 | h9 <;> simp [h9]
          exact ⟨h1, h2, Or.inr ⟨colorMatches_of_scan _ _ hsk1 hsk2 hne, h5,
            Or.inl ⟨h4, h3⟩⟩⟩
        · simp at h
      · split at h
        · rename_i hcond
          simp only [Bool.or_eq_true, beq_iff_eq] at hcond
          obtain ⟨h1, h2, h3, h4, h5⟩ := mem_bischop_movement g x y m h
          have hne : g.board y x ≠ Piece.EMPTY := by
            rcases hcond with h9 | h9 <;> simp [h9]
          exact ⟨h1, h2, Or.inr ⟨colorMatches_of_scan _ _ hsk1 hsk2 hne, h5,
            Or.inl ⟨h4, h3⟩⟩⟩
        · simp at h
      · split at h
        · rename_i hcond
          simp only [Bool.or_eq_true, beq_iff_eq] at hcond
          obtain ⟨h1, h2, h3, h4, h5⟩ := mem_rook_movement g x y m h
          have hne : g.board y x ≠ Piece.EMPTY := by
            rcases hcond with h9 | h9 <;> simp [h9]
          exact ⟨h1, h2, Or.inr ⟨colorMatches_of_scan _ _ hsk1 hsk2 hne, h5,
            Or.inl ⟨h4, h3⟩⟩⟩
        · simp at h

theorem dropMove_mem_cellMoves (g : Game) (x y : Fin 3)
    (he : g.board y x = Piece.EMPTY) (hr : dropRankOK g.turn y = true) :
    dropMove g.turn x y ∈ g.cellMoves x y := by
  simp only [Game.cellMoves, he]
  simp [Piece.is_black, Piece.is_white, hr]

theorem mem_scanCells (c : Fin 3 × Fin 3) : c ∈ scanCells := by
  revert c; decide

theorem mem_candidates (g : Game) (m : Move) :
    m ∈ g.candidates ↔ ∃ x y : Fin 3, m ∈ g.cellMoves x y := by
  simp only [Game.candidates, List.mem_flatMap]
  constructor
  · rintro ⟨c, _, h⟩
    exact ⟨c.1, c.2, h⟩
  · rintro ⟨x, y, h⟩
    exact ⟨(x, y), mem_scanCells _, h⟩

theorem dropRankOK_iff (t : Bool) (y : Fin 3) :
    dropRankOK t y = true ↔
      ((t = true → y.val ≠ 0) ∧ (t = false → y.val ≠ 2)) := by
  cases t <;> simp [dropRankOK]

/-- Claim C6: during candidate generation a placement candidate exists
for cell (x,y) iff the cell is empty and is not the forbidden
rank (White never drops on y=0, Black never on y=2); and every
no-destination candidate is a drop of the pawn of the mover at its start cell. -/
theorem claim_C6_drop_candidates (g : Game) (x y : Fin 3) :
    (dropMove g.turn x y ∈ g.candidates ↔
      (g.board y x = Piece.EMPTY ∧
        (g.turn = true → y.val ≠ 0) ∧ (g.turn = false → y.val ≠ 2))) ∧
    (∀ m ∈ g.candidates, (m.end_x = none ∨ m.end_y = none) →
      m = dropMove g.turn m.start_x m.start_y ∧
      g.board m.start_y m.start_x = Piece.EMPTY ∧
      (g.turn = true → m.start_y.val ≠ 0) ∧
      (g.turn = false → m.start_y.val ≠ 2)) := by
  constructor
  · constructor
    · intro h
      obtain ⟨a, b, hm⟩ := (mem_candidates g _).mp h
      obtain ⟨h1, h2, hcase⟩ := mem_cellMoves g a b _ hm
      cases h1
      cases h2
      rcases hcase with ⟨_, he, hr⟩ | ⟨_, ⟨ex, ey, hex, hey⟩, _⟩
      · exact ⟨he, (dropRankOK_iff g.turn y).mp hr⟩
      · cases hex
    · rintro ⟨he, h0, h2⟩
      exact (mem_candidates g _).mpr
        ⟨x, y, dropMove_mem_cellMoves g x y he ((dropRankOK_iff g.turn y).mpr ⟨h0, h2⟩)⟩
  · intro m hm hend
    obtain ⟨a, b, h⟩ := (mem_candidates g m).mp hm
    obtain ⟨h1, h2, hcase⟩ := mem_cellMoves g a b m h
    rcases hcase with ⟨hdm, he, hr⟩ | ⟨_, ⟨ex, ey, hex, hey⟩, _⟩
    · subst hdm
      cases h1
      cases h2
      exact ⟨rfl, he, (dropRankOK_iff g.turn _).mp hr⟩
    · rcases hend with h9 | h9
      · rw [hex] at h9
        cases h9
      · rw [hey] at h9
        cases h9

theorem claim_C6_witness :
    dropMove Game.initial.turn 0 2 ∈ Game.initial.candidates :=
  ((claim_C6_drop_candidates Game.initial 0 2).1).mpr (by decide)

/-- Claim C10: every move in `allowed_moves` carries a piece of the
color of the side to move, never empty and never an opponent piece:
placements carry the pawn of the mover, ordinary movements the occupant of
the start square, promotion variants the promotion piece of the mover. -/
theorem claim_C10_move_piece_color (g : Game) (m : Move)
    (h : m ∈ g.allowed_moves) :
    colorMatches g.turn m.piece = true ∧
    m.piece ≠ Piece.EMPTY ∧
    ((m.end_x = none ∨ m.end_y = none) → m.piece = moverPawn g.turn) ∧
    (m.promotion = none → (∃ ex, m.end_x = some ex) →
      m.piece = g.board m.start_y m.start_x) ∧
    (∀ p, m.promotion = some p → m.piece = p ∧ p ∈ promoPieces g.turn) := by
  have hc : m ∈ g.candidates := (List.mem_filter.mp h).1
  obtain ⟨a, b, hm⟩ := (mem_candidates g m).mp hc
  obtain ⟨h1, h2, hcase⟩ := mem_cellMoves g a b m hm
  rcases hcase with ⟨hdm, he, hr⟩ | ⟨hcolm, ⟨ex, ey, hex, hey⟩, hmove⟩
  · subst hdm
    refine ⟨?_, ?_, fun _ => rfl, ?_, ?_⟩
    · cases g.turn <;> rfl
    · cases g.turn <;> exact fun hq => Piece.noConfusion hq
    · rintro _ ⟨e, he9⟩
      cases he9
    · rintro p hp
      cases hp
  · rcases hmove with ⟨hpr, hpc⟩ | ⟨p, hpr, hpc, hpl, hpb⟩
    · refine ⟨?_, ?_, ?_, ?_, ?_⟩
      · rw [hpc]
        exact hcolm
      · rw [hpc]
        exact colorMatches_ne_empty _ _ hcolm
      · rintro (h9 | h9)
        · rw [hex] at h9
          cases h9
        · rw [hey] at h9
          cases h9
      · intro _ _
        rw [h1, h2, hpc]
      · intro p hp
        rw [hpr] at hp
        cases hp
    · have hcolp : colorMatches g.turn p = true := promoPieces_color _ _ hpl
      refine ⟨?_, ?_, ?_, ?_, ?_⟩
      · rw [hpc]
        exact hcolp
      · rw [hpc]
        exact colorMatches_ne_empty _ _ hcolp
      · rintro (h9 | h9)
        · rw [hex] at h9
          cases h9
        · rw [hey] at h9
          cases h9
      · intro h9 _
        rw [hpr] at h9
        cases h9
      · intro q hq
        rw [hpr] at hq
        injection hq with hq9
        subst hq9
        exact ⟨hpc, hpl⟩

theorem claim_C10_witness :
    colorMatches Game.initial.turn
      ((⟨0, 2, Piece.WHITE_PAWN, none, none, none⟩ : Move)).piece = true :=
  (claim_C10_move_piece_color Game.initial
    ⟨0, 2, Piece.WHITE_PAWN, none, none, none⟩ (by decide)).1

/-- Claim C4 (amended): a promotion option offered by `promote` is a
mover-colored non-pawn piece type that is not currently anywhere on the
board; the exclusion lasts only while the piece remains on the board. -/
theorem claim_C4_promotion_excludes_present (g : Game) (mv : Move)
    (hmv : mv.promotion = none) (m : Move) (hm : m ∈ g.promote mv)
    (p : Piece) (hp : m.promotion = some p) :
    pieceOnBoard g.board p = false ∧ m.piece = p ∧ p ∈ promoPieces g.turn := by
  rcases (mem_promote g mv m).mp hm with rfl | ⟨q, hq, hqb, rfl⟩
  · rw [hmv] at hp
    cases hp
  · simp only at hp
    injection hp with hp9
    subst hp9
    exact ⟨hqb, rfl, hq⟩

theorem claim_C4_witness :
    pieceOnBoard Game.initial.board Piece.WHITE_ROOK = false ∧
    (⟨0, 1, Piece.WHITE_ROOK, some 0, some 0, some Piece.WHITE_ROOK⟩ : Move).piece
        = Piece.WHITE_ROOK ∧
    Piece.WHITE_ROOK ∈ promoPieces Game.initial.turn :=
  claim_C4_promotion_excludes_present Game.initial
    ⟨0, 1, Piece.WHITE_PAWN, some 0, some 0, none⟩ rfl
    ⟨0, 1, Piece.WHITE_ROOK, some 0, some 0, some Piece.WHITE_ROOK⟩ (by decide)
    Piece.WHITE_ROOK rfl

/-- Claim C7 (amended): a placement writes the piece to the start cell
and flips the turn, leaving all other cells unchanged; a movement whose
end cell differs from its start cell writes the piece to the end cell,
clears the start cell, flips the turn, and leaves all other cells
unchanged.  (When start and end coincide, the start-clearing of the source
overwrites the end-cell write, so that case is excluded.) -/
theorem claim_C7_execute_frame (g : Game) (m : Move) :
    ((m.end_x = none ∨ m.end_y = none) →
      (g.execute_move m).board m.start_y m.start_x = m.piece ∧
      (g.execute_move m).turn = !g.turn ∧
      ∀ y x : Fin 3, ¬(y = m.start_y ∧ x = m.start_x) →
        (g.execute_move m).board y x = g.board y x) ∧
    (∀ ex ey : Fin 3, m.end_x = some ex → m.end_y = some ey →
      ¬(ex = m.start_x ∧ ey = m.start_y) →
      (g.execute_move m).board ey ex = m.piece ∧
      (g.execute_move m).board m.start_y m.start_x = Piece.EMPTY ∧
      (g.execute_move m).turn = !g.turn ∧
      ∀ y x : Fin 3, ¬(y = m.start_y ∧ x = m.start_x) → ¬(y = ey ∧ x = ex) →
        (g.execute_move m).board y x = g.board y x) := by
  rcases m with ⟨sx, sy, pc, mex, mey, pr⟩
  constructor
  · intro h
    have hplace : g.execute_move ⟨sx, sy, pc, mex, mey, pr⟩
        = { board := setBoard g.board sy sx pc, turn := !g.turn } := by
      rcases mex with _ | ex
      · rcases mey with _ | ey <;> rfl
      · rcases mey with _ | ey
        · rfl
        · rcases h with h | h <;> simp at h
    rw [hplace]
    refine ⟨?_, rfl, ?_⟩
    · simp [setBoard]
    · intro y x hyx
      simp only [setBoard]
      rw [if_neg hyx]
  · intro ex ey hex hey hne
    simp only at hex hey
    subst hex
    subst hey
    refine ⟨?_, ?_, rfl, ?_⟩
    · simp only [Game.execute_move, setBoard]
      rw [if_neg fun hc => hne ⟨hc.2, hc.1⟩]
      simp
    · simp [Game.execute_move, setBoard]
    · intro y x h1 h2
      simp only [Game.execute_move, setBoard]
      rw [if_neg h1, if_neg h2]

/-- Claim C7 (counterexample): for the degenerate movement whose start
and end coincide, the end cell does not receive the piece — the
start-cell clearing wins and the cell ends empty. -/
theorem claim_C7_counterexample :
    ¬ ((Game.initial.execute_move
          ⟨0, 0, Piece.WHITE_PAWN, some 0, some 0, none⟩).board 0 0
        = Piece.WHITE_PAWN) := by decide

theorem claim_C7_witness :
    (Game.initial.execute_move
        ⟨0, 1, Piece.WHITE_PAWN, some 0, some 0, none⟩).board 0 0
      = Piece.WHITE_PAWN ∧
    (Game.initial.execute_move
        ⟨0, 1, Piece.WHITE_PAWN, some 0, some 0, none⟩).board 1 0
      = Piece.EMPTY ∧
    (Game.initial.execute_move
        ⟨0, 1, Piece.WHITE_PAWN, some 0, some 0, none⟩).turn
      = !Game.initial.turn ∧
    (Game.initial.execute_move
        ⟨0, 1, Piece.WHITE_PAWN, some 0, some 0, none⟩).board 2 2
      = Game.initial.board 2 2 := by
  have h := (claim_C7_execute_frame Game.initial
    ⟨0, 1, Piece.WHITE_PAWN, some 0, some 0, none⟩).2 0 0 rfl rfl (by decide)
  exact ⟨h.1, h.2.1, h.2.2.1, h.2.2.2 2 2 (by decide) (by decide)⟩

theorem xMapping_eq_spec : ∀ x : Fin 3, xMapping x = specColLetter x := by decide

theorem yMapping_eq_spec : ∀ y : Fin 3, yMapping y = specRowDigit y := by decide

theorem promotionMapping_eq_spec :
    ∀ p : Piece, (p.is_rook || p.is_knight || p.is_bishop) = true →
      promotionMapping p = specPromoLetter p := by decide

/-- Claim C8: for every move whose promotion is absent or a non-pawn
colored piece, `to_string` renders exactly the documented grammar:
column letters a/b/c, row digits 3/2/1, a hyphen and end square exactly
when a destination exists, a trailing R/K/B letter exactly when a
promotion is set. -/
theorem claim_C8_to_string_grammar (m : Move)
    (hp : ∀ p, m.promotion = some p →
      (p.is_rook || p.is_knight || p.is_bishop) = true) :
    m.to_string = specMoveString m := by
  rcases m with ⟨sx, sy, pc, mex, mey, pr⟩
  rcases pr with _ | p
  · rcases mex with _ | ex <;> rcases mey with _ | ey <;>
      simp [Move.to_string, specMoveString, xMapping_eq_spec, yMapping_eq_spec,
        String.append_empty, String.append_assoc]
  · have hq := hp p rfl
    rcases mex with _ | ex <;> rcases mey with _ | ey <;>
      simp [Move.to_string, specMoveString, xMapping_eq_spec, yMapping_eq_spec,
        promotionMapping_eq_spec p hq, String.append_empty, String.append_assoc]

theorem claim_C8_witness :
    (⟨0, 1, Piece.WHITE_ROOK, some 0, some 0, some Piece.WHITE_ROOK⟩ : Move).to_string
      = specMoveString ⟨0, 1, Piece.WHITE_ROOK, some 0, some 0, some Piece.WHITE_ROOK⟩ :=
  claim_C8_to_string_grammar
    ⟨0, 1, Piece.WHITE_ROOK, some 0, some 0, some Piece.WHITE_ROOK⟩ (by decide)
